import Mathlib

/-!
Verification of the MQL → Atlas Search converter
(`mql-to-atlas-search.js`, class `MQLToAtlasSearchConverter`).

The JavaScript source is shallowly embedded below.  JavaScript objects
appearing in queries are modelled as ordered association lists
(`List (String × BVal)`), matching the source's reliance on
`Object.entries` iteration order.  `console.warn` diagnostics are
modelled by accumulating the warning messages in a list returned next
to the result; `throw` is modelled with `Except.error`.
-/

/-- The JavaScript values that can appear in an MQL query document:
`null`, booleans, numbers, strings, `Date`s, `RegExp`s, arrays and
plain objects.  Numbers are modelled as integers (all values exercised
by the source and its tests are integral). -/
inductive BVal where
  | null
  | bool (b : Bool)
  | num (n : Int)
  | str (s : String)
  | date (ms : Int)
  | regexp (pattern : String) (flags : String)
  | arr (elems : List BVal)
  | obj (entries : List (String × BVal))

/-- A JavaScript object / document: ordered key-value list. -/
abbrev MQLObj := List (String × BVal)

/-- JavaScript truthiness of a `BVal` (`if (value)`): `null`, `false`,
`0` and `""` are falsy, every array, object, `Date` and `RegExp` is
truthy. -/
def jsTruthy : BVal → Bool
  | .null => false
  | .bool b => b
  | .num n => n != 0
  | .str s => s != ""
  | _ => true

/-- `typeof v === 'string'`. -/
def BVal.isStr : BVal → Bool
  | .str _ => true
  | _ => false

/-- An Atlas Search clause, the translated unit.  The `compound`
constructor carries one `Option` per key the source may or may not put
into the compound object (`must`, `mustNot`, `should`,
`minimumShouldMatch`), so the exact JSON shape produced by the source
is preserved. -/
inductive Clause where
  | equals (path : String) (value : BVal)
  | range (path : String) (gt gte lt lte : Option BVal)
  | inClause (path : String) (value : BVal)
  | existsClause (path : String)
  | regex (query : String) (path : String) (options : Option BVal)
  | text (query : String) (path : BVal) (opts : MQLObj)
  | autocomplete (query : String) (path : BVal) (opts : MQLObj)
  | compound (must mustNot should : Option (List Clause))
      (minimumShouldMatch : Option Int)

/-- Result of a converter routine: a fatal error (JS `throw`), or a
clause list together with the `console.warn` messages it emitted. -/
abbrev Res := Except String (List Clause × List String)

/-- Outcome of one arm of the `switch` in `convertFieldOperators`
(source lines 446-592): the clauses pushed, the warnings printed, and
the updated `regexHandled` flag - or a thrown error. -/
inductive StepRes where
  | done (clauses : List Clause) (warns : List String) (regexHandled : Bool)
  | fail (e : String)

/-- One arm of the `switch` of `convertFieldOperators` (source lines
446-592), for the entry `(op, value)` with `op ≠ "$not"` (the `$not`
arm recurses and lives in `cfoGo`).  `operators` is the full operator
object (the `$regex` arm reads `operators.$options`), `regexHandled`
the flag threaded through the loop. -/
def opStep (field : String) (operators : MQLObj) (regexHandled : Bool)
    (op : String) (value : BVal) : StepRes :=
  if op = "$eq" then
    .done [Clause.equals field value] [] regexHandled
  else if op = "$ne" then
    .done [Clause.compound none (some [Clause.equals field value]) none none] [] regexHandled
  else if op = "$gt" then
    .done [Clause.range field (some value) none none none] [] regexHandled
  else if op = "$gte" then
    .done [Clause.range field none (some value) none none] [] regexHandled
  else if op = "$lt" then
    .done [Clause.range field none none (some value) none] [] regexHandled
  else if op = "$lte" then
    .done [Clause.range field none none none (some value)] [] regexHandled
  else if op = "$in" then
    .done [Clause.inClause field value] [] regexHandled
  else if op = "$nin" then
    .done [Clause.compound none (some [Clause.inClause field value]) none none] [] regexHandled
  else if op = "$exists" then
    if jsTruthy value then
      .done [Clause.existsClause field] [] regexHandled
    else
      .done [Clause.compound none (some [Clause.existsClause field]) none none] [] regexHandled
  else if op = "$regex" then
    if regexHandled then
      .done [] [] regexHandled
    else
      -- const options = operators.$options || ''
      let optionsVal := (List.lookup "$options" operators).getD (BVal.str "")
      let options := if jsTruthy optionsVal then optionsVal else BVal.str ""
      match value with
      | .str q =>
        .done [Clause.regex q field (if jsTruthy options then some options else none)] [] true
      | _ =>
        -- non-string pattern: no clause is pushed, and no warning is
        -- emitted (the source has no else-branch here)
        .done [] [] true
  else if op = "$options" then
    -- skipped: handled together with $regex
    .done [] [] regexHandled
  else
    .done [] ["Unsupported operator: " ++ op ++ " - skipping"] regexHandled

/-- The `$not` arm for a payload that is not a plain object, treated
the way `this.convertFieldOperators(field, value)` behaves in
JavaScript via `Object.entries`: `null` throws, arrays and strings
yield index entries (all of which hit the unsupported-operator
branch, so the recursive call returns no clauses and one warning per
entry), other primitives yield no entries; in each non-throwing case
the result pushed is `{compound: {mustNot: []}}`. -/
def notNonObjClauses : BVal → Res
  | .null => .error "TypeError: Cannot convert undefined or null to object"
  | .arr xs =>
    .ok ([Clause.compound none (some []) none none],
         (List.range xs.length).map
           (fun i => "Unsupported operator: " ++ toString i ++ " - skipping"))
  | .str s =>
    .ok ([Clause.compound none (some []) none none],
         (List.range s.length).map
           (fun i => "Unsupported operator: " ++ toString i ++ " - skipping"))
  | _ => .ok ([Clause.compound none (some []) none none], [])

/-- Loop of `convertFieldOperators` (source lines 442-595): walks the
remaining `Object.entries` of the operator object, dispatching each
entry through `opStep`; the `$not` arm with an object payload
re-enters the converter on the wrapped operator object, exactly as
`this.convertFieldOperators(field, value)` does. -/
def cfoGo (field : String) (operators : MQLObj) (regexHandled : Bool)
    (l : MQLObj) : Res :=
  match l with
  | [] => .ok ([], [])
  | (op, value) :: rest =>
    if op = "$not" then
      match value with
      | .obj kvs =>
        match cfoGo field kvs false kvs with
        | .error e => .error e
        | .ok (notClauses, ws1) =>
          match cfoGo field operators regexHandled rest with
          | .error e => .error e
          | .ok (cs, ws2) =>
            .ok (Clause.compound none (some notClauses) none none :: cs, ws1 ++ ws2)
      | v =>
        match notNonObjClauses v with
        | .error e => .error e
        | .ok (cs0, ws0) =>
          match cfoGo field operators regexHandled rest with
          | .error e => .error e
          | .ok (cs, ws) => .ok (cs0 ++ cs, ws0 ++ ws)
    else
      match opStep field operators regexHandled op value with
      | .fail e => .error e
      | .done cs0 ws0 rh =>
        match cfoGo field operators rh rest with
        | .error e => .error e
        | .ok (cs, ws) => .ok (cs0 ++ cs, ws0 ++ ws)
termination_by sizeOf l
decreasing_by all_goals (simp_wf <;> omega)

/-- `convertFieldOperators(field, operators)` (source lines 442-595). -/
def convertFieldOperators (field : String) (operators : MQLObj) : Res :=
  cfoGo field operators false operators

/-- The two-branch compound produced for a `null` field value
(source lines 356-377). -/
def nullFieldClause (field : String) : Clause :=
  Clause.compound none none
    (some [Clause.equals field BVal.null,
           Clause.compound none (some [Clause.existsClause field]) none none])
    (some 1)

/-- `convertFieldQuery(field, value)` (source lines 350-434):
dispatches on the shape of the field value - `null`, operator object,
array (empty / singleton / multi-element) or plain literal. -/
def convertFieldQuery (field : String) (value : BVal) : Res :=
  match value with
  | .null => .ok ([nullFieldClause field], [])
  | .obj kvs => convertFieldOperators field kvs
  | .arr xs =>
    match xs with
    | [] =>
      .ok ([Clause.compound none (some [Clause.existsClause field]) none none], [])
    | [x] => .ok ([Clause.equals field x], [])
    | _ =>
      .ok ([Clause.compound
              (some (xs.map (fun element => Clause.equals field element)))
              none none none],
           ["Warning: Exact array matching for multi-element arrays is not perfectly supported in Atlas Search. Query may return additional results."])
  | v => .ok ([Clause.equals field v], [])

/-- `field.startsWith('$')` (source line 293), phrased on the
character list so that it reduces on literals. -/
def startsWithDollar (field : String) : Bool :=
  match field.data with
  | [] => false
  | c :: _ => c = '$'

/-- Entries of a JavaScript array viewed through `Object.entries`:
index keys (never `$`-prefixed) paired with the elements. -/
def arrEntries (xs : List BVal) : MQLObj :=
  (List.range xs.length).zip xs |>.map (fun p => (toString p.1, p.2))

/-- Entries of a JavaScript string viewed through `Object.entries`:
index keys paired with one-character strings. -/
def strEntries (s : String) : MQLObj :=
  (List.range s.length).zip s.toList
    |>.map (fun p => (toString p.1, BVal.str (String.mk [p.2])))

/-- `convertQuery` restricted to an entry list none of whose keys is
`$`-prefixed (the `Object.entries` of an array or string subquery):
every entry goes through `convertFieldQuery`.  Kept outside the mutual
block below so the mutual recursion stays structural. -/
def convertPrimEntries : MQLObj → Res
  | [] => .ok ([], [])
  | (field, value) :: rest =>
    match convertFieldQuery field value with
    | .error e => .error e
    | .ok (cs, ws) =>
      match convertPrimEntries rest with
      | .error e => .error e
      | .ok (cs2, ws2) => .ok (cs ++ cs2, ws ++ ws2)

mutual

/-- `convertQuery(query)` (source lines 289-303): walks the entries of
the query object, dispatching `$`-prefixed keys to the logical-operator
converter and other keys to the field converter, concatenating the
resulting clause lists. -/
def convertQuery : MQLObj → Res
  | [] => .ok ([], [])
  | (field, value) :: rest =>
    match (if startsWithDollar field then convertLogicalOperator field value
           else convertFieldQuery field value) with
    | .error e => .error e
    | .ok (cs, ws) =>
      match convertQuery rest with
      | .error e => .error e
      | .ok (cs2, ws2) => .ok (cs ++ cs2, ws ++ ws2)

/-- `convertLogicalOperator(operator, value)` (source lines 311-342):
`$and` / `$or` / `$nor` recurse into the listed subqueries
(`value.flatMap(subQuery => this.convertQuery(subQuery))`) and wrap the
concatenation in the corresponding compound; a top-level `$not`, and
any other `$`-prefixed keyword, throws. -/
def convertLogicalOperator (operator : String) (value : BVal) : Res :=
  if operator = "$and" then
    match value with
    | .arr subs =>
      match convertSubQueries subs with
      | .error e => .error e
      | .ok (cs, ws) => .ok ([Clause.compound (some cs) none none none], ws)
    | _ => .error "TypeError: value.flatMap is not a function"
  else if operator = "$or" then
    match value with
    | .arr subs =>
      match convertSubQueries subs with
      | .error e => .error e
      | .ok (cs, ws) => .ok ([Clause.compound none none (some cs) (some 1)], ws)
    | _ => .error "TypeError: value.flatMap is not a function"
  else if operator = "$nor" then
    match value with
    | .arr subs =>
      match convertSubQueries subs with
      | .error e => .error e
      | .ok (cs, ws) => .ok ([Clause.compound none (some cs) none none], ws)
    | _ => .error "TypeError: value.flatMap is not a function"
  else if operator = "$not" then
    .error "$not operator should be handled at field level"
  else
    .error ("Unsupported logical operator: " ++ operator)

/-- `value.flatMap(subQuery => this.convertQuery(subQuery))`: converts
each subquery in order and concatenates clause and warning lists.
Non-object subqueries are treated as `Object.entries` treats them in
JavaScript: `null` throws, arrays and strings yield index entries
(handled by `convertPrimEntries` since no index key is `$`-prefixed),
other primitives yield no entries. -/
def convertSubQueries : List BVal → Res
  | [] => .ok ([], [])
  | q :: rest =>
    match (match q with
           | .obj kvs => convertQuery kvs
           | .null => .error "TypeError: Cannot convert undefined or null to object"
           | .arr xs => convertPrimEntries (arrEntries xs)
           | .str s => convertPrimEntries (strEntries s)
           | _ => .ok ([], [])) with
    | .error e => .error e
    | .ok (cs, ws) =>
      match convertSubQueries rest with
      | .error e => .error e
      | .ok (cs2, ws2) => .ok (cs ++ cs2, ws ++ ws2)

end

/-- The converter object: holds the index name supplied at
construction (source lines 7-10) and nothing else. -/
structure MQLToAtlasSearchConverter where
  indexName : String

/-- An Atlas Search sort specification:
`{ "<field>": { "order": <direction> } }`, in field order. -/
abbrev SearchSort := List (String × Int)

/-- A `$search` aggregation stage: the index identifier, the single
top-level clause (the source spreads the clause's key directly into
the `$search` object), and the optional embedded `sort`. -/
structure SearchStage where
  index : String
  clause : Clause
  sort : Option SearchSort

/-- `convertQueryToSearch(query)` (source lines 241-282): empty query
or zero generated clauses fall back to a match-all existence test on
`_id`; one clause is inlined; several clauses are wrapped in a
`compound.must`.  (The trailing `throw` of the source is unreachable:
the three list-length cases are exhaustive.) -/
def convertQueryToSearch (c : MQLToAtlasSearchConverter) (query : MQLObj) :
    Except String (SearchStage × List String) :=
  if query.length = 0 then
    .ok (⟨c.indexName, Clause.existsClause "_id", none⟩, [])
  else
    match convertQuery query with
    | .error e => .error e
    | .ok (searchClauses, ws) =>
      match searchClauses with
      | [] => .ok (⟨c.indexName, Clause.existsClause "_id", none⟩, ws)
      | [cl] => .ok (⟨c.indexName, cl, none⟩, ws)
      | cls => .ok (⟨c.indexName, Clause.compound (some cls) none none none, none⟩, ws)

/-- Loop of `convertSortToAtlasSearch` (source lines 221-231): builds
the Atlas sort field list in entry order; the first non-numeric
direction emits a warning and makes the whole specification
unconvertible (`return null`). -/
def convertSortGo : MQLObj → Option SearchSort × List String
  | [] => (some [], [])
  | (field, direction) :: rest =>
    match direction with
    | .num d =>
      match convertSortGo rest with
      | (some s, ws) => (some ((field, d) :: s), ws)
      | (none, ws) => (none, ws)
    | _ =>
      (none, ["Warning: Complex sort field " ++ field ++ " cannot be converted to Atlas Search sort"])

/-- `convertSortToAtlasSearch(sortSpec)` (source lines 213-234).  The
guard rejecting non-object inputs is enforced by the type here; an
empty resulting specification is returned as `null`. -/
def convertSortToAtlasSearch (sortSpec : MQLObj) : Option SearchSort × List String :=
  match convertSortGo sortSpec with
  | (some s, ws) => (if s.isEmpty then none else some s, ws)
  | (none, ws) => (none, ws)

/-- `convertQueryToSearchWithOptions(query, options)` (source lines
189-206): converts the query, then embeds the sort into the `$search`
stage when a sort option is given and convertible; limit/skip are
deliberately not embedded. -/
def convertQueryToSearchWithOptions (c : MQLToAtlasSearchConverter)
    (query : MQLObj) (sortOption : Option MQLObj) :
    Except String (SearchStage × List String) :=
  match convertQueryToSearch c query with
  | .error e => .error e
  | .ok (baseSearch, ws) =>
    match sortOption with
    | none => .ok (baseSearch, ws)
    | some sortSpec =>
      match convertSortToAtlasSearch sortSpec with
      | (some searchSort, ws2) =>
        .ok ({ baseSearch with sort := some searchSort }, ws ++ ws2)
      | (none, ws2) => .ok (baseSearch, ws ++ ws2)

/-- An aggregation pipeline stage.  Each constructor models a
single-key stage object (`{$match: ...}`, `{$sort: ...}`, ...); stages
the converter does not recognize are `sother` (e.g. `{$unwind: ...}`,
`{$group: ...}`), and `ssearch` is a produced (or passed-through)
`$search` stage. -/
inductive Stage where
  | smatch (query : MQLObj)
  | ssort (spec : MQLObj)
  | slimit (n : BVal)
  | sskip (n : BVal)
  | sproject (p : BVal)
  | ssearch (s : SearchStage)
  | sother (key : String) (value : BVal)

/-- `stage.$match` as used in `if (stage.$match)`: the query object
when the stage is a (truthy) `$match` stage.  Query objects are always
truthy in JavaScript. -/
def Stage.matchVal : Stage → Option MQLObj
  | .smatch q => some q
  | _ => none

/-- `stage.$sort` as a truthiness test: sort specifications are
objects, hence always truthy. -/
def Stage.sortVal : Stage → Option MQLObj
  | .ssort s => some s
  | _ => none

/-- `stage.$limit` as a truthiness test: `{$limit: 0}` is falsy. -/
def Stage.limitVal : Stage → Option BVal
  | .slimit n => if jsTruthy n then some n else none
  | _ => none

/-- `stage.$skip` as a truthiness test: `{$skip: 0}` is falsy. -/
def Stage.skipVal : Stage → Option BVal
  | .sskip n => if jsTruthy n then some n else none
  | _ => none

/-- `stage.$project` as a truthiness test. -/
def Stage.projectVal : Stage → Option BVal
  | .sproject p => if jsTruthy p then some p else none
  | _ => none

/-- The scan state of `optimizePipelineSequence` (source lines
129-155): the captured `sortStage` payload, `limitStage` / `skipStage`
payloads, the captured `$project` stage, the `remainingStages`
collected when the scan stops, and how many stages the scan consumed
(`currentIndex - startIndex - 1`). -/
structure ScanState where
  sortStage : Option MQLObj
  limitStage : Option BVal
  skipStage : Option BVal
  projectStage : Option Stage
  remaining : List Stage
  consumed : Nat

/-- The look-ahead loop of `optimizePipelineSequence` (source lines
137-155): captures the first `$sort`, `$limit`, `$skip` (and, when
`includeProjection` is requested, `$project`) stage each at most once;
the first stage of any other kind - or a second stage of an
already-captured kind - stops the scan, and every stage from there on
goes to `remaining` unchanged (`pipeline.slice(currentIndex)`). -/
def scanStages (includeProjection : Bool) (st : ScanState) :
    List Stage → ScanState
  | [] => st
  | stage :: rest =>
    if stage.sortVal.isSome && st.sortStage.isNone then
      scanStages includeProjection
        { st with sortStage := stage.sortVal, consumed := st.consumed + 1 } rest
    else if stage.limitVal.isSome && st.limitStage.isNone then
      scanStages includeProjection
        { st with limitStage := stage.limitVal, consumed := st.consumed + 1 } rest
    else if stage.skipVal.isSome && st.skipStage.isNone then
      scanStages includeProjection
        { st with skipStage := stage.skipVal, consumed := st.consumed + 1 } rest
    else if stage.projectVal.isSome && st.projectStage.isNone && includeProjection then
      scanStages includeProjection
        { st with projectStage := some stage, consumed := st.consumed + 1 } rest
    else
      { st with remaining := stage :: rest }

/-- Result of `optimizePipelineSequence` (source lines 175-180).
`consumed` is relative: the source's `nextIndex` equals
`startIndex + 1 + consumed`.  The source's `{optimized: false}` return
carries no other fields; `none` / `[]` / `0` stand in for the missing
ones. -/
structure OptimizationResult where
  optimized : Bool
  searchStage : Option SearchStage
  remainingStages : List Stage
  consumed : Nat

/-- The `remainingStages` rebuilt after the scan (source lines
162-173): `unshift` of the skip stage, then of the limit stage (so
limit ends up before skip), then - only when a `$project` stage was
captured AND `includeProjection` is false - of the project stage.
Since a `$project` stage is only ever captured when `includeProjection`
is true, that last `unshift` is dead code and a captured projection
stage is dropped. -/
def buildRemaining (includeProjection : Bool) (st : ScanState) : List Stage :=
  let r1 := st.remaining
  let r2 := match st.skipStage with
            | some n => Stage.sskip n :: r1
            | none => r1
  let r3 := match st.limitStage with
            | some n => Stage.slimit n :: r2
            | none => r2
  match st.projectStage, includeProjection with
  | some ps, false => ps :: r3
  | _, _ => r3

/-- `optimizePipelineSequence(pipeline, startIndex, options)` (source
lines 121-181), phrased on the stage at `startIndex` (`matchStage`)
and the following stages (`pipeline.slice(startIndex + 1)`).  A
non-`$match` stage yields `{optimized: false}`; otherwise the
look-ahead scan runs, the `$search` stage is built with the captured
sort embedded, and limit/skip (but not the captured projection, see
`buildRemaining`) are re-emitted as separate stages. -/
def optimizePipelineSequence (c : MQLToAtlasSearchConverter)
    (includeProjection : Bool) (matchStage : Stage) (tail : List Stage) :
    Except String (OptimizationResult × List String) :=
  match matchStage.matchVal with
  | none => .ok (⟨false, none, [], 0⟩, [])
  | some q =>
    let st := scanStages includeProjection ⟨none, none, none, none, [], 0⟩ tail
    match convertQueryToSearchWithOptions c q st.sortStage with
    | .error e => .error e
    | .ok (searchStage, ws) =>
      .ok (⟨true, some searchStage, buildRemaining includeProjection st, st.consumed⟩, ws)

/-- The loop of `convertAggregationPipeline` (source lines 79-108),
phrased on the remaining suffix of the pipeline.  For a `$match` stage
the optimizer result is emitted as `searchStage :: remainingStages`,
and the loop then resumes at `nextIndex` - i.e. at the first stage the
scan did not consume, which `remainingStages` may ALSO contain
(`pipeline.slice(currentIndex)`), so those stages are emitted twice.
Any other stage is passed through unchanged. -/
def capGo (c : MQLToAtlasSearchConverter) (includeProjection : Bool) :
    List Stage → Except String (List Stage × List String)
  | [] => .ok ([], [])
  | stage :: rest =>
    match stage.matchVal with
    | some _ =>
      (match optimizePipelineSequence c includeProjection stage rest with
       | .error e => .error e
       | .ok (opt, ws) =>
         if opt.optimized then
           match opt.searchStage with
           | some s =>
             (match capGo c includeProjection (rest.drop opt.consumed) with
              | .error e => .error e
              | .ok (out, ws2) =>
                .ok (Stage.ssearch s :: opt.remainingStages ++ out, ws ++ ws2))
           | none => .error "undefined search stage"
         else
           -- unreachable here (stage.$match is truthy), kept for fidelity
           match convertQueryToSearch c (stage.matchVal.getD []) with
           | .error e => .error e
           | .ok (s, ws2) =>
             match capGo c includeProjection rest with
             | .error e => .error e
             | .ok (out, ws3) =>
               .ok (Stage.ssearch s :: out, ws ++ ws2 ++ ws3))
    | none =>
      match capGo c includeProjection rest with
      | .error e => .error e
      | .ok (out, ws) => .ok (stage :: out, ws)
termination_by l => l.length
decreasing_by all_goals (simp_wf <;> omega)

/-- `convertAggregationPipeline(pipeline, options)` (source lines
74-111).  The `Array.isArray` guard is enforced by the type. -/
def convertAggregationPipeline (c : MQLToAtlasSearchConverter)
    (includeProjection : Bool) (pipeline : List Stage) :
    Except String (List Stage × List String) :=
  capGo c includeProjection pipeline

/-- The `options` argument of `convertFindQuery` (source line 18). -/
structure FindOptions where
  projection : Option BVal
  sort : Option MQLObj
  skip : Option BVal
  limit : Option BVal

/-- `convertFindQuery(query, options)` (source lines 18-65): with a
sort option the `$search` stage embeds the sort; projection, skip and
limit follow as separate stages (each only when truthy), in that
order, in both branches. -/
def convertFindQuery (c : MQLToAtlasSearchConverter) (query : MQLObj)
    (options : FindOptions) : Except String (List Stage × List String) :=
  match (if options.sort.isSome then
           convertQueryToSearchWithOptions c query options.sort
         else
           convertQueryToSearch c query) with
  | .error e => .error e
  | .ok (searchStage, ws) =>
    let p1 := [Stage.ssearch searchStage]
    let p2 := p1 ++ (match options.projection with
                     | some pr => if jsTruthy pr then [Stage.sproject pr] else []
                     | none => [])
    let p3 := p2 ++ (match options.skip with
                     | some n => if jsTruthy n then [Stage.sskip n] else []
                     | none => [])
    let p4 := p3 ++ (match options.limit with
                     | some n => if jsTruthy n then [Stage.slimit n] else []
                     | none => [])
    .ok (p4, ws)

/-- `createTextSearch(searchText, path, options)` (source lines
604-615). -/
def createTextSearch (c : MQLToAtlasSearchConverter) (searchText : String)
    (path : BVal) (options : MQLObj) : SearchStage :=
  ⟨c.indexName, Clause.text searchText path options, none⟩

/-- `createAutocomplete(query, path, options)` (source lines 624-635). -/
def createAutocomplete (c : MQLToAtlasSearchConverter) (query : String)
    (path : BVal) (options : MQLObj) : SearchStage :=
  ⟨c.indexName, Clause.autocomplete query path options, none⟩

/-- The single-bound range clause produced for one range-operator
entry (source lines 470-504); the four arms correspond to the four
`switch` cases, the catch-all is the `$lte` arm (it is only ever
applied to the four range keys). -/
def rangeBoundClause (field : String) : String × BVal → Clause
  | ("$gt", v) => Clause.range field (some v) none none none
  | ("$gte", v) => Clause.range field none (some v) none none
  | ("$lt", v) => Clause.range field none none (some v) none
  | (_, v) => Clause.range field none none none (some v)

/-- The operator keys with a `case` in the `switch` of
`convertFieldOperators` (source lines 447-588); every other key hits
the `default` warn-and-skip branch. -/
def recognizedOperator (op : String) : Bool :=
  op ∈ (["$eq", "$ne", "$gt", "$gte", "$lt", "$lte", "$in", "$nin",
         "$exists", "$regex", "$options", "$not"] : List String)

/-! ## Claim theorems -/

/-- C1: for every field name `f` (a non-`$` key), translating the
filter `{f: null}` produces a compound at-least-one-of clause
(`should` with `minimumShouldMatch: 1`) with exactly two branches,
both on path `f`: an equality clause with value `null`, and a
`mustNot`-wrapped existence clause; both branches are always present
together, and the clause is what `convertQueryToSearch` inlines into
the `$search` stage. -/
theorem C1_null_two_branch_compound (c : MQLToAtlasSearchConverter) (f : String)
    (h : startsWithDollar f = false) :
    convertFieldQuery f BVal.null =
      .ok ([Clause.compound none none
              (some [Clause.equals f BVal.null,
                     Clause.compound none (some [Clause.existsClause f]) none none])
              (some 1)], []) ∧
    convertQueryToSearch c [(f, BVal.null)] =
      .ok (⟨c.indexName,
            Clause.compound none none
              (some [Clause.equals f BVal.null,
                     Clause.compound none (some [Clause.existsClause f]) none none])
              (some 1), none⟩, []) := by
  refine ⟨rfl, ?_⟩
  simp [convertQueryToSearch, convertQuery, h, convertFieldQuery, nullFieldClause]

/-- Witness for C1 at `f = "status"` with index `"default"`. -/
theorem C1_null_two_branch_compound_witness :
    startsWithDollar "status" = false ∧
    convertQueryToSearch ⟨"default"⟩ [("status", BVal.null)] =
      .ok (⟨"default",
            Clause.compound none none
              (some [Clause.equals "status" BVal.null,
                     Clause.compound none (some [Clause.existsClause "status"]) none none])
              (some 1), none⟩, []) :=
  ⟨by decide, (C1_null_two_branch_compound ⟨"default"⟩ "status" (by decide)).2⟩

/-- C10: the two-branch null treatment applies only to a direct null
literal: `{f: {$eq: null}}` produces a single plain equality clause
with value `null` (no negated-existence branch), unlike `{f: null}`,
which produces the two-branch compound. -/
theorem C10_eq_null_vs_literal_null (f : String) :
    convertFieldQuery f (BVal.obj [("$eq", BVal.null)]) =
      .ok ([Clause.equals f BVal.null], []) ∧
    convertFieldQuery f BVal.null =
      .ok ([Clause.compound none none
              (some [Clause.equals f BVal.null,
                     Clause.compound none (some [Clause.existsClause f]) none none])
              (some 1)], []) := by
  refine ⟨?_, rfl⟩
  simp [convertFieldQuery, convertFieldOperators, cfoGo, opStep]

/-- C2, evaluated at the failing input
`[{$match:{a:1}}, {$sort:{p:"text"}}]`: the non-numeric sort direction
emits the diagnostic and the sort is not embedded (the `$search` stage
has `sort := none`), but the `$sort` stage does NOT reappear as a
separate stage - the output pipeline is the single `$search` stage, so
the sort directive is silently dropped, contradicting the claim. -/
theorem C2_nonnumeric_sort_stage_dropped :
    convertAggregationPipeline ⟨"test-index"⟩ false
      [Stage.smatch [("a", BVal.num 1)], Stage.ssort [("p", BVal.str "text")]] =
    .ok ([Stage.ssearch ⟨"test-index", Clause.equals "a" (BVal.num 1), none⟩],
         ["Warning: Complex sort field p cannot be converted to Atlas Search sort"]) := by
  simp [convertAggregationPipeline, capGo, optimizePipelineSequence, Stage.matchVal,
        scanStages, Stage.sortVal, Stage.limitVal, Stage.skipVal, Stage.projectVal,
        buildRemaining, convertQueryToSearchWithOptions, convertQueryToSearch,
        convertQuery, startsWithDollar, convertFieldQuery, convertSortToAtlasSearch,
        convertSortGo]

/-- C3, evaluated at the failing input: a fold over
`[{$match:{a:1}}, {$project:{x:1}}]` with projection folding requested
captures the `$project` stage (`consumed = 1`) but emits neither a
projection inside the `$search` stage nor a separate `$project` stage
(`remainingStages = []`): the captured projection is lost,
contradicting the claim that it is never lost. -/
theorem C3_captured_projection_lost :
    optimizePipelineSequence ⟨"test-index"⟩ true
      (Stage.smatch [("a", BVal.num 1)])
      [Stage.sproject (BVal.obj [("x", BVal.num 1)])] =
    .ok (⟨true, some ⟨"test-index", Clause.equals "a" (BVal.num 1), none⟩, [], 1⟩, []) := by
  simp [optimizePipelineSequence, Stage.matchVal, scanStages, Stage.sortVal,
        Stage.limitVal, Stage.skipVal, Stage.projectVal, jsTruthy, buildRemaining,
        convertQueryToSearchWithOptions, convertQueryToSearch, convertQuery,
        startsWithDollar, convertFieldQuery]

/-- C7, evaluated at the claim's own example
`[{$match:{a:1}}, {$unwind:"$tags"}, {$sort:{p:1}}]`: the scan stops at
the unfoldable `$unwind` stage and pushes the whole remainder into
`remainingStages`, but the outer loop then resumes at the same index,
so the `$unwind` and `$sort` stages are emitted TWICE - the output has
five stages instead of the claimed three. -/
theorem C7_unfoldable_stage_duplicated :
    convertAggregationPipeline ⟨"test-index"⟩ false
      [Stage.smatch [("a", BVal.num 1)],
       Stage.sother "$unwind" (BVal.str "$tags"),
       Stage.ssort [("p", BVal.num 1)]] =
    .ok ([Stage.ssearch ⟨"test-index", Clause.equals "a" (BVal.num 1), none⟩,
          Stage.sother "$unwind" (BVal.str "$tags"),
          Stage.ssort [("p", BVal.num 1)],
          Stage.sother "$unwind" (BVal.str "$tags"),
          Stage.ssort [("p", BVal.num 1)]], []) := by
  simp [convertAggregationPipeline, capGo, optimizePipelineSequence, Stage.matchVal,
        scanStages, Stage.sortVal, Stage.limitVal, Stage.skipVal, Stage.projectVal,
        buildRemaining, convertQueryToSearchWithOptions, convertQueryToSearch,
        convertQuery, startsWithDollar, convertFieldQuery]

/-- Any `$`-prefixed key outside `$and` / `$or` / `$nor` makes
`convertLogicalOperator` throw, whatever its value: `$not` hits the
dedicated throw, everything else the default throw. -/
theorem convertLogicalOperator_error (op : String) (v : BVal)
    (hop : op ∉ (["$and", "$or", "$nor"] : List String)) :
    ∃ e, convertLogicalOperator op v = .error e := by
  simp only [List.mem_cons, List.mem_singleton, List.not_mem_nil, or_false] at hop
  push_neg at hop
  obtain ⟨h1, h2, h3⟩ := hop
  by_cases h4 : op = "$not"
  · subst h4
    exact ⟨"$not operator should be handled at field level", by
      rw [convertLogicalOperator.eq_def]; simp⟩
  · exact ⟨"Unsupported logical operator: " ++ op, by
      rw [convertLogicalOperator.eq_def]; simp [h1, h2, h3, h4]⟩

/-- An entry whose key is `$`-prefixed but not `$and` / `$or` / `$nor`
poisons the whole `convertQuery`: the iteration either reaches the
entry (and its arm throws) or an earlier entry throws first. -/
theorem convertQuery_error_of_mem (q : MQLObj) (op : String) (w : BVal)
    (hd : startsWithDollar op = true)
    (hop : op ∉ (["$and", "$or", "$nor"] : List String))
    (hm : (op, w) ∈ q) :
    ∃ e, convertQuery q = .error e := by
  induction q with
  | nil => simp at hm
  | cons p tl ih =>
    obtain ⟨k, v⟩ := p
    rcases List.mem_cons.mp hm with heq | hmem
    · injection heq with hk hv
      subst hk
      subst hv
      obtain ⟨e, he⟩ := convertLogicalOperator_error op w hop
      exact ⟨e, by simp [convertQuery, hd, he]⟩
    · cases hh : (if startsWithDollar k then convertLogicalOperator k v
                  else convertFieldQuery k v) with
      | error e => exact ⟨e, by simp [convertQuery, hh]⟩
      | ok pr =>
        obtain ⟨cs, ws⟩ := pr
        obtain ⟨e, he⟩ := ih hmem
        exact ⟨e, by simp [convertQuery, hh, he]⟩

/-- C4: a Filter Expression containing a top-level `$not` key, or any
logical (i.e. `$`-prefixed) keyword other than `$and` / `$or` / `$nor`,
makes the translator raise a fatal error: `convertQuery` throws and
`convertQueryToSearch` surfaces the same error to the caller - the key
is never silently skipped. -/
theorem C4_top_level_not_and_unknown_logical_fatal
    (c : MQLToAtlasSearchConverter) (q : MQLObj) (op : String) (w : BVal)
    (hd : startsWithDollar op = true)
    (hop : op ∉ (["$and", "$or", "$nor"] : List String))
    (hm : (op, w) ∈ q) :
    ∃ e, convertQuery q = .error e ∧ convertQueryToSearch c q = .error e := by
  obtain ⟨e, he⟩ := convertQuery_error_of_mem q op w hd hop hm
  refine ⟨e, he, ?_⟩
  have hq : ¬ q.length = 0 := by
    cases q with
    | nil => simp at hm
    | cons a l => simp
  simp [convertQueryToSearch, hq, he]

/-- Witness for C4: a top-level `{$not: {$gt: 5}}` and an unrecognized
`{$where: "x"}` each raise a fatal error. -/
theorem C4_top_level_not_and_unknown_logical_fatal_witness :
    (∃ e, convertQuery [("$not", BVal.obj [("$gt", BVal.num 5)])] = .error e ∧
          convertQueryToSearch ⟨"default"⟩ [("$not", BVal.obj [("$gt", BVal.num 5)])] = .error e) ∧
    (∃ e, convertQuery [("$where", BVal.str "x")] = .error e ∧
          convertQueryToSearch ⟨"default"⟩ [("$where", BVal.str "x")] = .error e) :=
  ⟨C4_top_level_not_and_unknown_logical_fatal ⟨"default"⟩ _ "$not"
     (BVal.obj [("$gt", BVal.num 5)]) (by decide) (by decide) (by simp),
   C4_top_level_not_and_unknown_logical_fatal ⟨"default"⟩ _ "$where"
     (BVal.str "x") (by decide) (by decide) (by simp)⟩

/-- An operator object all of whose keys are range bounds converts to
one single-bound range clause per entry, in order, with no warnings,
regardless of the `regexHandled` flag and of the full operator object
threaded through. -/
theorem cfoGo_all_range_bounds (f : String) (full : MQLObj) (rh : Bool) (l : MQLObj)
    (h : ∀ p ∈ l, p.1 ∈ (["$gt", "$gte", "$lt", "$lte"] : List String)) :
    cfoGo f full rh l = .ok (l.map (rangeBoundClause f), []) := by
  induction l with
  | nil => simp [cfoGo]
  | cons p tl ih =>
    obtain ⟨k, v⟩ := p
    have hk : k ∈ (["$gt", "$gte", "$lt", "$lte"] : List String) := h (k, v) (by simp)
    have ih' := ih (fun p hp => h p (List.mem_cons_of_mem _ hp))
    simp only [List.mem_cons, List.mem_singleton, List.not_mem_nil, or_false] at hk
    rcases hk with rfl | rfl | rfl | rfl <;>
      (rw [cfoGo.eq_def]; simp [opStep, ih', rangeBoundClause])

/-- C6: an Operator Set carrying several range bounds on the same
field produces one separate range clause per bound (each carrying
exactly that one bound), and the resulting clauses are combined under
an all-must-match `compound.must`; in particular
`{f: {$gte: 18, $lt: 65}}` yields two range clauses under `must`, not
one range clause with two bounds. -/
theorem C6_separate_range_clauses (c : MQLToAtlasSearchConverter) (f : String)
    (ops : MQLObj)
    (hops : ∀ p ∈ ops, p.1 ∈ (["$gt", "$gte", "$lt", "$lte"] : List String))
    (hf : startsWithDollar f = false) :
    convertFieldOperators f ops = .ok (ops.map (rangeBoundClause f), []) ∧
    convertQueryToSearch c [(f, BVal.obj [("$gte", BVal.num 18), ("$lt", BVal.num 65)])] =
      .ok (⟨c.indexName,
            Clause.compound
              (some [Clause.range f none (some (BVal.num 18)) none none,
                     Clause.range f none none (some (BVal.num 65)) none])
              none none none, none⟩, []) := by
  constructor
  · exact cfoGo_all_range_bounds f ops false ops hops
  · simp [convertQueryToSearch, convertQuery, hf, convertFieldQuery,
          convertFieldOperators, cfoGo, opStep]

/-- Witness for C6 at `{age: {$gte: 18, $lt: 65}}`. -/
theorem C6_separate_range_clauses_witness :
    (∀ p ∈ ([("$gte", BVal.num 18), ("$lt", BVal.num 65)] : MQLObj),
       p.1 ∈ (["$gt", "$gte", "$lt", "$lte"] : List String)) ∧
    startsWithDollar "age" = false ∧
    convertFieldOperators "age" [("$gte", BVal.num 18), ("$lt", BVal.num 65)] =
      .ok ([Clause.range "age" none (some (BVal.num 18)) none none,
            Clause.range "age" none none (some (BVal.num 65)) none], []) := by
  refine ⟨by simp, by decide, ?_⟩
  have h := (C6_separate_range_clauses ⟨"default"⟩ "age"
               [("$gte", BVal.num 18), ("$lt", BVal.num 65)] (by simp) (by decide)).1
  simpa [rangeBoundClause] using h

/-- C5 counterexample: for the Operator Set
`{$regex: 5, $eq: "x"}` the non-string pattern produces no pattern
clause and conversion of the remaining keys continues (the `$eq`
clause is produced), but the diagnostic list is EMPTY - no diagnostic
is emitted for the non-string pattern, contrary to the claim. -/
theorem C5_counterexample_no_diagnostic :
    convertFieldOperators "f" [("$regex", BVal.num 5), ("$eq", BVal.str "x")] =
      .ok ([Clause.equals "f" (BVal.str "x")], []) := by
  simp [convertFieldOperators, cfoGo, opStep]

/-- A `$options` entry is skipped: the loop just moves on with the
same flag. -/
theorem cfoGo_options_skip (f : String) (full : MQLObj) (rh : Bool) (fl : BVal)
    (rest : MQLObj) :
    cfoGo f full rh (("$options", fl) :: rest) = cfoGo f full rh rest := by
  rw [cfoGo.eq_def]
  cases hres : cfoGo f full rh rest with
  | error e => simp [opStep, hres]
  | ok pr => obtain ⟨cs, ws⟩ := pr; simp [opStep, hres]

/-- A string `$regex` entry met with the flag still unset produces the
pattern clause, carrying the truthy `$options` value looked up in the
full operator object, and sets the flag for the rest of the loop. -/
theorem cfoGo_regex_str_withflags (f : String) (full : MQLObj) (q : String)
    (fl : BVal) (rest : MQLObj)
    (hlk : List.lookup "$options" full = some fl) (hfl : jsTruthy fl = true) :
    cfoGo f full false (("$regex", BVal.str q) :: rest) =
      match cfoGo f full true rest with
      | .error e => .error e
      | .ok (cs, ws) => .ok (Clause.regex q f (some fl) :: cs, ws) := by
  rw [cfoGo.eq_def]
  cases hres : cfoGo f full true rest with
  | error e => simp [opStep, hlk, hfl, hres]
  | ok pr => obtain ⟨cs, ws⟩ := pr; simp [opStep, hlk, hfl, hres]

/-- C5 (amended): a string pattern produces exactly one pattern clause
carrying the raw pattern and the flags found under the paired
`$options` key of the same Operator Set, whichever side of `$regex`
the flags key sits on (processed exactly once); a non-string pattern
value produces no pattern clause and conversion of the remaining keys
continues with the `regexHandled` flag set - but silently, without a
diagnostic. -/
theorem C5_regex_pattern_handling (f : String) (q : String) (fl : BVal) (v : BVal)
    (hfl : jsTruthy fl = true) (hv : v.isStr = false) :
    convertFieldOperators f [("$regex", BVal.str q), ("$options", fl)] =
      .ok ([Clause.regex q f (some fl)], []) ∧
    convertFieldOperators f [("$options", fl), ("$regex", BVal.str q)] =
      .ok ([Clause.regex q f (some fl)], []) ∧
    (∀ full rest, cfoGo f full false (("$regex", v) :: rest) = cfoGo f full true rest) := by
  refine ⟨?_, ?_, ?_⟩
  · simp only [convertFieldOperators]
    rw [cfoGo_regex_str_withflags _ _ _ fl _ (by simp [List.lookup]) hfl,
        cfoGo_options_skip]
    simp [cfoGo]
  · simp only [convertFieldOperators]
    rw [cfoGo_options_skip,
        cfoGo_regex_str_withflags _ _ _ fl _ (by simp [List.lookup]) hfl]
    simp [cfoGo]
  · intro full rest
    rw [cfoGo.eq_def]
    cases v with
    | str s => simp [BVal.isStr] at hv
    | null =>
      simp only [opStep]
      cases hres : cfoGo f full true rest with
      | error e => simp [hres]
      | ok pr => obtain ⟨cs, ws⟩ := pr; simp [hres]
    | bool b =>
      simp only [opStep]
      cases hres : cfoGo f full true rest with
      | error e => simp [hres]
      | ok pr => obtain ⟨cs, ws⟩ := pr; simp [hres]
    | num n =>
      simp only [opStep]
      cases hres : cfoGo f full true rest with
      | error e => simp [hres]
      | ok pr => obtain ⟨cs, ws⟩ := pr; simp [hres]
    | date d =>
      simp only [opStep]
      cases hres : cfoGo f full true rest with
      | error e => simp [hres]
      | ok pr => obtain ⟨cs, ws⟩ := pr; simp [hres]
    | regexp p fl2 =>
      simp only [opStep]
      cases hres : cfoGo f full true rest with
      | error e => simp [hres]
      | ok pr => obtain ⟨cs, ws⟩ := pr; simp [hres]
    | arr xs =>
      simp only [opStep]
      cases hres : cfoGo f full true rest with
      | error e => simp [hres]
      | ok pr => obtain ⟨cs, ws⟩ := pr; simp [hres]
    | obj kvs =>
      simp only [opStep]
      cases hres : cfoGo f full true rest with
      | error e => simp [hres]
      | ok pr => obtain ⟨cs, ws⟩ := pr; simp [hres]

/-- Witness for C5 at `{name: {$regex: "^A", $options: "i"}}` and the
non-string pattern `5`. -/
theorem C5_regex_pattern_handling_witness :
    jsTruthy (BVal.str "i") = true ∧ (BVal.num 5).isStr = false ∧
    convertFieldOperators "name" [("$regex", BVal.str "^A"), ("$options", BVal.str "i")] =
      .ok ([Clause.regex "^A" "name" (some (BVal.str "i"))], []) :=
  ⟨by decide, by decide,
   (C5_regex_pattern_handling "name" "^A" (BVal.str "i") (BVal.num 5)
      (by decide) (by decide)).1⟩

/-- Each of the nine simple single-clause operator keys (`$eq`, `$ne`,
the four range bounds, `$in`, `$nin`, `$exists`) pushes exactly one
clause, no warning, and leaves the `regexHandled` flag alone. -/
theorem cfoGo_simple_op_cons (f : String) (full : MQLObj) (rh : Bool) (k : String)
    (v : BVal) (rest : MQLObj)
    (hk : k ∈ (["$eq", "$ne", "$gt", "$gte", "$lt", "$lte", "$in", "$nin",
                "$exists"] : List String)) :
    ∃ cl, cfoGo f full rh ((k, v) :: rest) =
      match cfoGo f full rh rest with
      | .error e => .error e
      | .ok (cs, ws) => .ok (cl :: cs, ws) := by
  simp only [List.mem_cons, List.not_mem_nil, or_false] at hk
  rcases hk with rfl | rfl | rfl | rfl | rfl | rfl | rfl | rfl | rfl
  · refine ⟨Clause.equals f v, ?_⟩
    rw [cfoGo.eq_def]
    cases hres : cfoGo f full rh rest with
    | error e => simp [opStep, hres]
    | ok pr => obtain ⟨cs, ws⟩ := pr; simp [opStep, hres]
  · refine ⟨Clause.compound none (some [Clause.equals f v]) none none, ?_⟩
    rw [cfoGo.eq_def]
    cases hres : cfoGo f full rh rest with
    | error e => simp [opStep, hres]
    | ok pr => obtain ⟨cs, ws⟩ := pr; simp [opStep, hres]
  · refine ⟨Clause.range f (some v) none none none, ?_⟩
    rw [cfoGo.eq_def]
    cases hres : cfoGo f full rh rest with
    | error e => simp [opStep, hres]
    | ok pr => obtain ⟨cs, ws⟩ := pr; simp [opStep, hres]
  · refine ⟨Clause.range f none (some v) none none, ?_⟩
    rw [cfoGo.eq_def]
    cases hres : cfoGo f full rh rest with
    | error e => simp [opStep, hres]
    | ok pr => obtain ⟨cs, ws⟩ := pr; simp [opStep, hres]
  · refine ⟨Clause.range f none none (some v) none, ?_⟩
    rw [cfoGo.eq_def]
    cases hres : cfoGo f full rh rest with
    | error e => simp [opStep, hres]
    | ok pr => obtain ⟨cs, ws⟩ := pr; simp [opStep, hres]
  · refine ⟨Clause.range f none none none (some v), ?_⟩
    rw [cfoGo.eq_def]
    cases hres : cfoGo f full rh rest with
    | error e => simp [opStep, hres]
    | ok pr => obtain ⟨cs, ws⟩ := pr; simp [opStep, hres]
  · refine ⟨Clause.inClause f v, ?_⟩
    rw [cfoGo.eq_def]
    cases hres : cfoGo f full rh rest with
    | error e => simp [opStep, hres]
    | ok pr => obtain ⟨cs, ws⟩ := pr; simp [opStep, hres]
  · refine ⟨Clause.compound none (some [Clause.inClause f v]) none none, ?_⟩
    rw [cfoGo.eq_def]
    cases hres : cfoGo f full rh rest with
    | error e => simp [opStep, hres]
    | ok pr => obtain ⟨cs, ws⟩ := pr; simp [opStep, hres]
  · by_cases hj : jsTruthy v
    · refine ⟨Clause.existsClause f, ?_⟩
      rw [cfoGo.eq_def]
      cases hres : cfoGo f full rh rest with
      | error e => simp [opStep, hres, hj]
      | ok pr => obtain ⟨cs, ws⟩ := pr; simp [opStep, hres, hj]
    · refine ⟨Clause.compound none (some [Clause.existsClause f]) none none, ?_⟩
      rw [cfoGo.eq_def]
      cases hres : cfoGo f full rh rest with
      | error e => simp [opStep, hres, hj]
      | ok pr => obtain ⟨cs, ws⟩ := pr; simp [opStep, hres, hj]

/-- A key with no `case` in the `switch` hits the `default` branch:
one warning, no clause, loop continues with the flag unchanged. -/
theorem cfoGo_unrecognized_cons (f : String) (full : MQLObj) (rh : Bool)
    (u : String) (w : BVal) (rest : MQLObj)
    (hu : recognizedOperator u = false) :
    cfoGo f full rh ((u, w) :: rest) =
      match cfoGo f full rh rest with
      | .error e => .error e
      | .ok (cs, ws) =>
        .ok (cs, ("Unsupported operator: " ++ u ++ " - skipping") :: ws) := by
  simp only [recognizedOperator, List.mem_cons, List.not_mem_nil, or_false,
             decide_eq_false_iff_not] at hu
  push_neg at hu
  obtain ⟨h1, h2, h3, h4, h5, h6, h7, h8, h9, h10, h11, h12⟩ := hu
  rw [cfoGo.eq_def]
  cases hres : cfoGo f full rh rest with
  | error e =>
    simp [opStep, hres, h1, h2, h3, h4, h5, h6, h7, h8, h9, h10, h11, h12]
  | ok pr =>
    obtain ⟨cs, ws⟩ := pr
    simp [opStep, hres, h1, h2, h3, h4, h5, h6, h7, h8, h9, h10, h11, h12]

/-- C8 counterexample: `{$regex: 5, $foo: 1}` has exactly one
recognized key (`$regex`, with a non-string value) and one
unrecognized key (`$foo`); conversion produces exactly one diagnostic
but ZERO clauses, not the claimed one clause. -/
theorem C8_counterexample_zero_clauses :
    convertFieldOperators "f" [("$regex", BVal.num 5), ("$foo", BVal.num 1)] =
      .ok ([], ["Unsupported operator: $foo - skipping"]) := by
  simp [convertFieldOperators, cfoGo, opStep]

/-- C8 (amended): for an Operator Set made of one recognized
single-clause operator key (equal, not-equal, one of the four range
bounds, membership, non-membership, or exists - not the flags-key,
pattern-match with a non-string value, or negation-wrapper, whose arms
can produce zero clauses or extra diagnostics) and one unrecognized
key, in either order, conversion produces exactly one Search Clause
and exactly one diagnostic, and never fails. -/
theorem C8_one_clause_one_diagnostic (f : String) (k : String) (v : BVal)
    (u : String) (w : BVal)
    (hk : k ∈ (["$eq", "$ne", "$gt", "$gte", "$lt", "$lte", "$in", "$nin",
                "$exists"] : List String))
    (hu : recognizedOperator u = false) :
    (∃ cl, convertFieldOperators f [(k, v), (u, w)] =
        .ok ([cl], ["Unsupported operator: " ++ u ++ " - skipping"])) ∧
    (∃ cl, convertFieldOperators f [(u, w), (k, v)] =
        .ok ([cl], ["Unsupported operator: " ++ u ++ " - skipping"])) := by
  constructor
  · obtain ⟨cl, hcl⟩ := cfoGo_simple_op_cons f [(k, v), (u, w)] false k v [(u, w)] hk
    refine ⟨cl, ?_⟩
    simp only [convertFieldOperators]
    rw [hcl, cfoGo_unrecognized_cons f [(k, v), (u, w)] false u w [] hu]
    simp [cfoGo]
  · obtain ⟨cl, hcl⟩ := cfoGo_simple_op_cons f [(u, w), (k, v)] false k v [] hk
    refine ⟨cl, ?_⟩
    simp only [convertFieldOperators]
    rw [cfoGo_unrecognized_cons f [(u, w), (k, v)] false u w [(k, v)] hu, hcl]
    simp [cfoGo]

/-- Witness for C8 at `{$gt: 3, $foo: 1}` (both orders). -/
theorem C8_one_clause_one_diagnostic_witness :
    "$gt" ∈ (["$eq", "$ne", "$gt", "$gte", "$lt", "$lte", "$in", "$nin",
              "$exists"] : List String) ∧
    recognizedOperator "$foo" = false ∧
    ((∃ cl, convertFieldOperators "f" [("$gt", BVal.num 3), ("$foo", BVal.num 1)] =
        .ok ([cl], ["Unsupported operator: $foo - skipping"])) ∧
     (∃ cl, convertFieldOperators "f" [("$foo", BVal.num 1), ("$gt", BVal.num 3)] =
        .ok ([cl], ["Unsupported operator: $foo - skipping"]))) :=
  ⟨by decide, by decide,
   C8_one_clause_one_diagnostic "f" "$gt" (BVal.num 3) "$foo" (BVal.num 1)
     (by decide) (by decide)⟩

/-- Every branch of `convertQueryToSearch` stamps `this.indexName`
into the stage it returns. -/
theorem convertQueryToSearch_index (c : MQLToAtlasSearchConverter) (q : MQLObj)
    (s : SearchStage) (ws : List String)
    (h : convertQueryToSearch c q = .ok (s, ws)) : s.index = c.indexName := by
  unfold convertQueryToSearch at h
  split at h
  · simp only [Except.ok.injEq, Prod.mk.injEq] at h
    obtain ⟨h1, -⟩ := h
    rw [← h1]
  · split at h
    · simp at h
    · split at h
      · simp only [Except.ok.injEq, Prod.mk.injEq] at h
        obtain ⟨h1, -⟩ := h
        rw [← h1]
      · simp only [Except.ok.injEq, Prod.mk.injEq] at h
        obtain ⟨h1, -⟩ := h
        rw [← h1]
      · simp only [Except.ok.injEq, Prod.mk.injEq] at h
        obtain ⟨h1, -⟩ := h
        rw [← h1]

theorem convertQueryToSearchWithOptions_index (c : MQLToAtlasSearchConverter)
    (q : MQLObj) (so : Option MQLObj) (s : SearchStage) (ws : List String)
    (h : convertQueryToSearchWithOptions c q so = .ok (s, ws)) :
    s.index = c.indexName := by
  unfold convertQueryToSearchWithOptions at h
  split at h
  · simp at h
  · rename_i baseSearch ws0 heq
    have hbase := convertQueryToSearch_index c q baseSearch ws0 heq
    split at h
    · simp only [Except.ok.injEq, Prod.mk.injEq] at h
      obtain ⟨h1, -⟩ := h
      rw [← h1]; exact hbase
    · split at h
      · simp only [Except.ok.injEq, Prod.mk.injEq] at h
        obtain ⟨h1, -⟩ := h
        rw [← h1]; exact hbase
      · simp only [Except.ok.injEq, Prod.mk.injEq] at h
        obtain ⟨h1, -⟩ := h
        rw [← h1]; exact hbase

theorem stage_projectVal_isSome (stage : Stage)
    (h : stage.projectVal.isSome = true) : ∃ p, stage = Stage.sproject p := by
  cases stage <;> simp [Stage.projectVal] at h ⊢

theorem scanStages_remaining_mem (ip : Bool) :
    ∀ (l : List Stage) (st : ScanState) (x : Stage),
      x ∈ (scanStages ip st l).remaining → x ∈ st.remaining ∨ x ∈ l := by
  intro l
  induction l with
  | nil =>
    intro st x hx
    rw [scanStages] at hx
    exact .inl hx
  | cons stage rest ih =>
    intro st x hx
    rw [scanStages] at hx
    split_ifs at hx with h1 h2 h3 h4
    · rcases ih _ x hx with h | h
      · exact .inl h
      · exact .inr (List.mem_cons_of_mem _ h)
    · rcases ih _ x hx with h | h
      · exact .inl h
      · exact .inr (List.mem_cons_of_mem _ h)
    · rcases ih _ x hx with h | h
      · exact .inl h
      · exact .inr (List.mem_cons_of_mem _ h)
    · rcases ih _ x hx with h | h
      · exact .inl h
      · exact .inr (List.mem_cons_of_mem _ h)
    · exact .inr hx

theorem scanStages_project (ip : Bool) :
    ∀ (l : List Stage) (st : ScanState),
      (scanStages ip st l).projectStage = st.projectStage ∨
      ∃ p, (scanStages ip st l).projectStage = some (Stage.sproject p) := by
  intro l
  induction l with
  | nil =>
    intro st
    left
    rw [scanStages]
  | cons stage rest ih =>
    intro st
    rw [scanStages]
    split_ifs with h1 h2 h3 h4
    · exact ih _
    · exact ih _
    · exact ih _
    · rcases ih { st with projectStage := some stage, consumed := st.consumed + 1 } with h | h
      · obtain ⟨⟨hsome, -⟩, -⟩ := by
          simpa [Bool.and_eq_true] using h4
        obtain ⟨p, rfl⟩ := stage_projectVal_isSome stage hsome
        exact .inr ⟨p, h⟩
      · exact .inr h
    · left
      rfl

theorem buildRemaining_search_mem (ip : Bool) (st : ScanState) (s : SearchStage)
    (hproj : st.projectStage = none ∨ ∃ p, st.projectStage = some (Stage.sproject p))
    (hx : Stage.ssearch s ∈ buildRemaining ip st) :
    Stage.ssearch s ∈ st.remaining := by
  obtain ⟨so, lo, sk, pr, rem, cnt⟩ := st
  rcases hproj with hp | ⟨p, hp⟩ <;> simp only at hp <;> subst hp <;>
    cases lo <;> cases sk <;> cases ip <;>
      simp [buildRemaining] at hx <;> exact hx

theorem capGo_nil (c : MQLToAtlasSearchConverter) (ip : Bool) :
    capGo c ip [] = .ok ([], []) := by
  rw [capGo]

theorem capGo_cons_nonmatch (c : MQLToAtlasSearchConverter) (ip : Bool)
    (stage : Stage) (rest : List Stage) (hm : stage.matchVal = none) :
    capGo c ip (stage :: rest) =
      match capGo c ip rest with
      | .error e => .error e
      | .ok (out, ws) => .ok (stage :: out, ws) := by
  rw [capGo.eq_def]
  cases hres : capGo c ip rest with
  | error e => simp [hm, hres]
  | ok pr => obtain ⟨out, ws⟩ := pr; simp [hm, hres]

theorem optimizePipelineSequence_ok (c : MQLToAtlasSearchConverter) (ip : Bool)
    (stage : Stage) (rest : List Stage) (q : MQLObj) (hm : stage.matchVal = some q)
    (ss : SearchStage) (ws : List String)
    (hcv : convertQueryToSearchWithOptions c q
             (scanStages ip ⟨none, none, none, none, [], 0⟩ rest).sortStage = .ok (ss, ws)) :
    optimizePipelineSequence c ip stage rest =
      .ok (⟨true, some ss,
            buildRemaining ip (scanStages ip ⟨none, none, none, none, [], 0⟩ rest),
            (scanStages ip ⟨none, none, none, none, [], 0⟩ rest).consumed⟩, ws) := by
  unfold optimizePipelineSequence
  rw [hm]
  simp [hcv]

theorem optimizePipelineSequence_err (c : MQLToAtlasSearchConverter) (ip : Bool)
    (stage : Stage) (rest : List Stage) (q : MQLObj) (hm : stage.matchVal = some q)
    (e : String)
    (hcv : convertQueryToSearchWithOptions c q
             (scanStages ip ⟨none, none, none, none, [], 0⟩ rest).sortStage = .error e) :
    optimizePipelineSequence c ip stage rest = .error e := by
  unfold optimizePipelineSequence
  rw [hm]
  simp [hcv]

theorem capGo_cons_match (c : MQLToAtlasSearchConverter) (ip : Bool)
    (stage : Stage) (rest : List Stage) (q : MQLObj) (ss : SearchStage)
    (ws1 : List String) (hm : stage.matchVal = some q)
    (hcv : convertQueryToSearchWithOptions c q
             (scanStages ip ⟨none, none, none, none, [], 0⟩ rest).sortStage = .ok (ss, ws1)) :
    capGo c ip (stage :: rest) =
      match capGo c ip
          (rest.drop (scanStages ip ⟨none, none, none, none, [], 0⟩ rest).consumed) with
      | .error e => .error e
      | .ok (out, ws2) =>
        .ok (Stage.ssearch ss ::
              buildRemaining ip (scanStages ip ⟨none, none, none, none, [], 0⟩ rest) ++ out,
             ws1 ++ ws2) := by
  rw [capGo.eq_def]
  have hopt := optimizePipelineSequence_ok c ip stage rest q hm ss ws1 hcv
  cases hres : capGo c ip
      (rest.drop (scanStages ip ⟨none, none, none, none, [], 0⟩ rest).consumed) with
  | error e => simp [hm, hopt, hres]
  | ok pr => obtain ⟨out, ws2⟩ := pr; simp [hm, hopt, hres]

theorem capGo_cons_match_err (c : MQLToAtlasSearchConverter) (ip : Bool)
    (stage : Stage) (rest : List Stage) (q : MQLObj) (e : String)
    (hm : stage.matchVal = some q)
    (hcv : convertQueryToSearchWithOptions c q
             (scanStages ip ⟨none, none, none, none, [], 0⟩ rest).sortStage = .error e) :
    capGo c ip (stage :: rest) = .error e := by
  rw [capGo.eq_def]
  have hopt := optimizePipelineSequence_err c ip stage rest q hm e hcv
  simp [hm, hopt]

theorem capGo_search_index (c : MQLToAtlasSearchConverter) (ip : Bool) :
    ∀ (n : Nat) (l : List Stage), l.length ≤ n →
      ∀ out ws, capGo c ip l = .ok (out, ws) →
      ∀ s, Stage.ssearch s ∈ out → s.index = c.indexName ∨ Stage.ssearch s ∈ l := by
  intro n
  induction n with
  | zero =>
    intro l hl out ws h s hs
    have hnil : l = [] := List.length_eq_zero.mp (Nat.le_zero.mp hl)
    subst hnil
    rw [capGo_nil] at h
    simp only [Except.ok.injEq, Prod.mk.injEq] at h
    obtain ⟨h1, -⟩ := h
    rw [← h1] at hs
    simp at hs
  | succ n ih =>
    intro l hl out ws h s hs
    cases l with
    | nil =>
      rw [capGo_nil] at h
      simp only [Except.ok.injEq, Prod.mk.injEq] at h
      obtain ⟨h1, -⟩ := h
      rw [← h1] at hs
      simp at hs
    | cons stage rest =>
      have hlen : rest.length ≤ n := by
        simp only [List.length_cons] at hl
        omega
      cases hm : stage.matchVal with
      | none =>
        rw [capGo_cons_nonmatch c ip stage rest hm] at h
        cases hrec : capGo c ip rest with
        | error e => rw [hrec] at h; simp at h
        | ok pr =>
          obtain ⟨out2, ws2⟩ := pr
          rw [hrec] at h
          simp only [Except.ok.injEq, Prod.mk.injEq] at h
          obtain ⟨hout, -⟩ := h
          rw [← hout] at hs
          rcases List.mem_cons.mp hs with hhd | htl
          · right; rw [hhd]; exact List.mem_cons_self _ _
          · rcases ih rest hlen out2 ws2 hrec s htl with hidx | hmem
            · exact .inl hidx
            · exact .inr (List.mem_cons_of_mem _ hmem)
      | some q =>
        cases hcv : convertQueryToSearchWithOptions c q
            (scanStages ip ⟨none, none, none, none, [], 0⟩ rest).sortStage with
        | error e =>
          rw [capGo_cons_match_err c ip stage rest q e hm hcv] at h
          simp at h
        | ok pr =>
          obtain ⟨ss, ws1⟩ := pr
          rw [capGo_cons_match c ip stage rest q ss ws1 hm hcv] at h
          cases hrec : capGo c ip
              (rest.drop (scanStages ip ⟨none, none, none, none, [], 0⟩ rest).consumed) with
          | error e => rw [hrec] at h; simp at h
          | ok pr2 =>
            obtain ⟨out2, ws2⟩ := pr2
            rw [hrec] at h
            simp only [Except.ok.injEq, Prod.mk.injEq] at h
            obtain ⟨hout, -⟩ := h
            rw [← hout] at hs
            rcases List.mem_cons.mp hs with hhd | htl
            · left
              have hss : s = ss := by
                injection hhd
              rw [hss]
              exact convertQueryToSearchWithOptions_index c q _ ss ws1 hcv
            · rcases List.mem_append.mp htl with hb | ho
              · have hproj : (scanStages ip ⟨none, none, none, none, [], 0⟩ rest).projectStage = none ∨
                    ∃ p, (scanStages ip ⟨none, none, none, none, [], 0⟩ rest).projectStage =
                      some (Stage.sproject p) :=
                  scanStages_project ip rest ⟨none, none, none, none, [], 0⟩
                have hrem := buildRemaining_search_mem ip _ s hproj hb
                rcases scanStages_remaining_mem ip rest ⟨none, none, none, none, [], 0⟩ _ hrem with h0 | hr
                · simp at h0
                · exact .inr (List.mem_cons_of_mem _ hr)
              · have hlen2 : (rest.drop
                    (scanStages ip ⟨none, none, none, none, [], 0⟩ rest).consumed).length ≤ n := by
                  have := List.length_drop
                    (scanStages ip ⟨none, none, none, none, [], 0⟩ rest).consumed rest
                  omega
                rcases ih _ hlen2 out2 ws2 hrec s ho with hidx | hmem
                · exact .inl hidx
                · exact .inr (List.mem_cons_of_mem _ (List.drop_subset _ _ hmem))

theorem convertFindQuery_search_index (c : MQLToAtlasSearchConverter) (q : MQLObj)
    (opts : FindOptions) (out : List Stage) (ws : List String)
    (h : convertFindQuery c q opts = .ok (out, ws)) :
    ∀ s, Stage.ssearch s ∈ out → s.index = c.indexName := by
  unfold convertFindQuery at h
  split at h
  · simp at h
  · rename_i searchStage ws0 heq
    have hidx : searchStage.index = c.indexName := by
      by_cases hso : opts.sort.isSome
      · rw [if_pos hso] at heq
        exact convertQueryToSearchWithOptions_index c q opts.sort searchStage ws0 heq
      · rw [if_neg hso] at heq
        exact convertQueryToSearch_index c q searchStage ws0 heq
    simp only [Except.ok.injEq, Prod.mk.injEq] at h
    obtain ⟨hout, -⟩ := h
    intro s hs
    rw [← hout] at hs
    simp only [List.mem_append, List.mem_cons, List.mem_singleton,
               List.not_mem_nil, or_false] at hs
    rcases hs with ((hhd | hP) | hS) | hL
    · injection hhd with hss
      rw [← hss] at hidx
      exact hidx
    · cases hPv : opts.projection with
      | none => rw [hPv] at hP; simp at hP
      | some pr =>
        rw [hPv] at hP
        by_cases hj : jsTruthy pr <;> simp [hj] at hP
    · cases hSv : opts.skip with
      | none => rw [hSv] at hS; simp at hS
      | some n =>
        rw [hSv] at hS
        by_cases hj : jsTruthy n <;> simp [hj] at hS
    · cases hLv : opts.limit with
      | none => rw [hLv] at hL; simp at hL
      | some n =>
        rw [hLv] at hL
        by_cases hj : jsTruthy n <;> simp [hj] at hL

/-- C9: every `$search` stage produced by a query-translating
operation of a converter instance - `convertQueryToSearch`,
`convertQueryToSearchWithOptions`, `createTextSearch`,
`createAutocomplete`, `convertFindQuery` and
`convertAggregationPipeline` - carries the `indexName` supplied at
construction; for the pipeline converter, any `$search` stage in the
output either carries that index or was already a stage of the input
(passed through, not produced).  No operation returns a modified
converter, so the identifier itself is never changed. -/
theorem C9_index_invariant (c : MQLToAtlasSearchConverter) :
    (∀ q s ws, convertQueryToSearch c q = .ok (s, ws) → s.index = c.indexName) ∧
    (∀ q so s ws, convertQueryToSearchWithOptions c q so = .ok (s, ws) →
       s.index = c.indexName) ∧
    (∀ t p o, (createTextSearch c t p o).index = c.indexName) ∧
    (∀ t p o, (createAutocomplete c t p o).index = c.indexName) ∧
    (∀ q opts out ws, convertFindQuery c q opts = .ok (out, ws) →
       ∀ s, Stage.ssearch s ∈ out → s.index = c.indexName) ∧
    (∀ ip l out ws, convertAggregationPipeline c ip l = .ok (out, ws) →
       ∀ s, Stage.ssearch s ∈ out → s.index = c.indexName ∨ Stage.ssearch s ∈ l) :=
  ⟨fun q s ws h => convertQueryToSearch_index c q s ws h,
   fun q so s ws h => convertQueryToSearchWithOptions_index c q so s ws h,
   fun _ _ _ => rfl,
   fun _ _ _ => rfl,
   fun q opts out ws h => convertFindQuery_search_index c q opts out ws h,
   fun ip l out ws h => capGo_search_index c ip l.length l (le_refl _) out ws h⟩

/-- Witness for C9 with index `"products"`: a plain query conversion,
a text-search stage, and a single-`$match` pipeline conversion. -/
theorem C9_index_invariant_witness :
    (⟨"products", Clause.equals "a" (BVal.num 1), none⟩ : SearchStage).index = "products" ∧
    (createTextSearch ⟨"products"⟩ "hello" (BVal.str "*") []).index = "products" ∧
    ((⟨"products", Clause.equals "a" (BVal.num 1), none⟩ : SearchStage).index = "products" ∨
      Stage.ssearch ⟨"products", Clause.equals "a" (BVal.num 1), none⟩ ∈
        [Stage.smatch [("a", BVal.num 1)]]) :=
  ⟨(C9_index_invariant ⟨"products"⟩).1 [("a", BVal.num 1)]
      ⟨"products", Clause.equals "a" (BVal.num 1), none⟩ []
      (by simp [convertQueryToSearch, convertQuery, startsWithDollar, convertFieldQuery]),
   (C9_index_invariant ⟨"products"⟩).2.2.1 "hello" (BVal.str "*") [],
   (C9_index_invariant ⟨"products"⟩).2.2.2.2.2 false [Stage.smatch [("a", BVal.num 1)]]
      [Stage.ssearch ⟨"products", Clause.equals "a" (BVal.num 1), none⟩] []
      (by simp [convertAggregationPipeline, capGo, optimizePipelineSequence, Stage.matchVal,
                scanStages, buildRemaining, convertQueryToSearchWithOptions,
                convertQueryToSearch, convertQuery, startsWithDollar, convertFieldQuery])
      ⟨"products", Clause.equals "a" (BVal.num 1), none⟩ (by simp)⟩
